import Mathlib

/-!
A shallow embedding of the `pool` Go package (files `pool.go`, `channel.go`):
a bounded resource pool built around a buffered channel of idle connections.

Modelling conventions:
* The resource type `interface{}` becomes a type parameter `α`; a possibly-nil
  resource is `Option α` (`none` = Go `nil`).
* The buffered channel `chan *idleConn` (capacity fixed at creation) becomes
  `ChanBuf α`: a FIFO list `buf` together with its capacity `cap`.  A
  non-blocking receive pops the head when `buf` is nonempty; a non-blocking
  send appends when `buf.length < cap`.  `c.conns` can be set to `nil` by
  `Release`, hence `conns : Option (ChanBuf α)`.
* Go `int` becomes `Int` (the counters in the claims stay far from 2^63, and
  the claims are about sign/bounds, so no wraparound is modelled).
* `time.Time` / `time.Duration` become `Int` timestamps and durations; each
  operation takes the current time `now` as a parameter, and
  `t.Add(d).Before(now)` becomes `t + d < now`.
* The user callbacks (factory, close/destructor, ping) are collaborators.
  The pool only stores whether each one is non-nil (`factorySet`, `closeSet`,
  `pingSet`; `Release` sets factory/close to nil).  Their behaviour is an
  oracle passed to each operation: `factory : Nat → Except String α`
  (consumed at an explicit call counter `factoryCalls`, so successive calls
  may differ), `closeO pingO : α → Option String` (`some e` = the callback
  returned error `e`).  Calling a nil function value in Go panics; the model
  returns a distinguished `panicked` outcome in that case.
* Side effects that the claims talk about (invoking the destructor on a
  resource, the fixed 20ms sleep, log prints) are recorded in an `Effect`
  trace returned by each operation.
* `Get` and the sweep scan `judgeTimeout` contain `for` loops; they are
  modelled with an explicit fuel parameter, returning `none` when the loop
  has not finished within the given fuel (i.e. the call has not returned).
* The mutex serialises all operations; the model is the sequential semantics
  of one operation running to completion at a time.
-/

namespace pool

/-- `ErrClosed = errors.New("pool is closed")` from `pool.go`. -/
def ErrClosed : String := "pool is closed"

/-- The error returned by `Put`/`Close`/`Ping` on a nil resource. -/
def ErrConnNil : String := "connection is nil. rejecting"

/-- `idleConn` from `channel.go`: a connection paired with the time it was
put into the buffer. -/
structure idleConn (α : Type) where
  conn : α
  t : Int
  deriving DecidableEq, Repr

/-- A Go buffered channel of (non-nil) `*idleConn` values: FIFO contents plus
the fixed capacity chosen at `make(chan *idleConn, cap)`. -/
structure ChanBuf (α : Type) where
  cap : Nat
  buf : List (idleConn α)
  deriving DecidableEq, Repr

/-- `channelPool` from `channel.go`.  `conns = none` models `c.conns == nil`
(the closed pool); `factorySet`/`closeSet`/`pingSet` record whether the
corresponding function field is non-nil; `factoryCalls` counts factory
invocations so that the factory oracle can vary between calls. -/
structure channelPool (α : Type) where
  conns : Option (ChanBuf α)
  maxActive : Int
  maxIdle : Int
  curConnCount : Int
  factorySet : Bool
  closeSet : Bool
  pingSet : Bool
  idleTimeout : Int
  checkInterval : Int
  factoryCalls : Nat
  deriving DecidableEq, Repr

/-- `PoolConfig` from `channel.go` (the function fields reduced to their
nil-ness; their behaviour is the oracles passed to the operations). -/
structure PoolConfig where
  initialCap : Int
  maxActive : Int
  maxIdle : Int
  factorySet : Bool
  closeSet : Bool
  pingSet : Bool
  idleTimeout : Int
  checkInterval : Int
  deriving DecidableEq, Repr

/-- Observable side effects of an operation, in order. -/
inductive Effect (α : Type) where
  | destroyed (a : α)
  | sleep (ms : Nat)
  | log (s : String)
  deriving DecidableEq, Repr

/-- Result of `Get`: the returned resource, a returned error, or a runtime
panic (nil function call). -/
inductive GetR (α : Type) where
  | panicked
  | ok (a : α)
  | err (e : String)
  deriving DecidableEq, Repr

/-- Result of `Put` (and of `Close`/`Ping`): the returned error value
(`none` = nil error), or a runtime panic. -/
inductive PutR where
  | panicked
  | ret (e : Option String)
  deriving DecidableEq, Repr

/-- The `default:` branch of `Get`'s select (`channel.go:189-204`).
`.inl (c, eff)` means `continue` (another loop iteration with pool state `c`
and accumulated effects `eff`); `.inr` means the call returns. -/
def getDefault {α : Type} (factory : Nat → Except String α)
    (c : channelPool α) (eff : List (Effect α)) :
    (channelPool α × List (Effect α)) ⊕ (GetR α × channelPool α × List (Effect α)) :=
  let c1 := { c with curConnCount := c.curConnCount + 1 }
  if c1.curConnCount > c1.maxActive then
    .inl ({ c1 with curConnCount := c1.curConnCount - 1 },
      eff ++ [Effect.sleep 20, Effect.log "conn pool full, sleep 20 ms"])
  else if c.factorySet then
    match factory c1.factoryCalls with
    | .error e =>
      .inr (GetR.err e,
        { c1 with curConnCount := c1.curConnCount - 1,
                  factoryCalls := c1.factoryCalls + 1 }, eff)
    | .ok a =>
      .inr (GetR.ok a, { c1 with factoryCalls := c1.factoryCalls + 1 }, eff)
  else
    -- c.factory == nil: nil function call panics
    .inr (GetR.panicked, c1, eff)

/-- The `for { select { ... } }` loop of `channelPool.Get`
(`channel.go:165-206`), one constructor case per loop iteration.
The accumulator `eff` keeps effects from earlier iterations. -/
def getLoop {α : Type} (factory : Nat → Except String α) (pingO : α → Option String)
    (now : Int) :
    Nat → channelPool α → List (Effect α) →
    Option (GetR α × channelPool α × List (Effect α))
  | 0, _, _ => none
  | fuel+1, c, eff =>
    match c.conns with
    | some cb =>
      match cb.buf with
      | wrapConn :: rest =>
        -- case wrapConn := <-c.conns  (non-blocking receive succeeded).
        -- `wrapConn == nil` only happens on a closed channel, which the
        -- sequential semantics never observes here.
        let c1 := { c with conns := some { cb with buf := rest } }
        if 0 < c.idleTimeout ∧ wrapConn.t + c.idleTimeout < now then
          -- stale: c.Close(wrapConn.conn); c.decrCurCount(); continue
          if c.closeSet then
            getLoop factory pingO now fuel
              { c1 with curConnCount := c1.curConnCount - 1 }
              (eff ++ [Effect.destroyed wrapConn.conn])
          else
            -- c.close == nil: nil function call inside c.Close
            some (GetR.panicked, c1, eff)
        else if c.pingSet then
          match pingO wrapConn.conn with
          | some e =>
            -- failed ping: fmt.Println(...); continue  (NO Close, NO decrement)
            getLoop factory pingO now fuel c1
              (eff ++ [Effect.log ("conn is not able to be connected: " ++ e)])
          | none => some (GetR.ok wrapConn.conn, c1, eff)
        else some (GetR.ok wrapConn.conn, c1, eff)
      | [] =>
        -- default: branch (receive would block)
        match getDefault factory c eff with
        | .inl (c2, eff2) => getLoop factory pingO now fuel c2 eff2
        | .inr res => some res
    | none =>
      -- c.conns == nil inside the loop: the nil channel is never ready, so
      -- the select takes its default branch.
      match getDefault factory c eff with
      | .inl (c2, eff2) => getLoop factory pingO now fuel c2 eff2
      | .inr res => some res

/-- `channelPool.Get` (`channel.go:160-207`): the initial
`if c.conns == nil { return nil, ErrClosed }` check, then the loop. -/
def Get {α : Type} (factory : Nat → Except String α) (pingO : α → Option String)
    (now : Int) (fuel : Nat) (c : channelPool α) :
    Option (GetR α × channelPool α × List (Effect α)) :=
  match c.conns with
  | none => some (GetR.err ErrClosed, c, [])
  | some _ => getLoop factory pingO now fuel c []

/-- `channelPool.Put` (`channel.go:210-231`). -/
def Put {α : Type} (closeO : α → Option String) (now : Int)
    (c : channelPool α) (conn : Option α) :
    PutR × channelPool α × List (Effect α) :=
  match conn with
  | none => (PutR.ret (some ErrConnNil), c, [])
  | some a =>
    match c.conns with
    | none =>
      -- pool closed: c.curConnCount--; return c.Close(conn)
      let c1 := { c with curConnCount := c.curConnCount - 1 }
      if c.closeSet then (PutR.ret (closeO a), c1, [Effect.destroyed a])
      else (PutR.panicked, c1, [])  -- c.close == nil after Release: panic
    | some cb =>
      if cb.buf.length < cb.cap then
        -- non-blocking send succeeds
        (PutR.ret none,
         { c with conns := some { cb with buf := cb.buf ++ [⟨a, now⟩] } }, [])
      else
        -- buffer full: c.curConnCount--; return c.Close(conn)
        let c1 := { c with curConnCount := c.curConnCount - 1 }
        if c.closeSet then (PutR.ret (closeO a), c1, [Effect.destroyed a])
        else (PutR.panicked, c1, [])

/-- `channelPool.Close` (`channel.go:234-239`): nil-resource guard, then the
user destructor (panics if `c.close == nil`). -/
def Close {α : Type} (closeO : α → Option String) (c : channelPool α)
    (conn : Option α) : PutR × List (Effect α) :=
  match conn with
  | none => (PutR.ret (some ErrConnNil), [])
  | some a =>
    if c.closeSet then (PutR.ret (closeO a), [Effect.destroyed a])
    else (PutR.panicked, [])

/-- `channelPool.Ping` (`channel.go:242-247`): nil-resource guard, then the
user health-check (panics if `c.ping == nil`). -/
def Ping {α : Type} (pingO : α → Option String) (c : channelPool α)
    (conn : Option α) : PutR :=
  match conn with
  | none => PutR.ret (some ErrConnNil)
  | some a => if c.pingSet then PutR.ret (pingO a) else PutR.panicked

/-- Result of `channelPool.Release`: the pool afterwards, the resources on
which the captured destructor was invoked (in drain order), and whether the
drain panicked (nil destructor against a nonempty buffer). -/
structure RelR (α : Type) where
  pool : channelPool α
  destroyed : List α
  panicked : Bool
  deriving DecidableEq, Repr

/-- `channelPool.Release` (`channel.go:250-267`): swap `conns`, `factory`,
`close` to nil under the lock (capturing the old values), then, if the old
channel was non-nil, close it and destroy every buffered connection with the
captured destructor. -/
def Release {α : Type} (c : channelPool α) : RelR α :=
  let c1 := { c with conns := none, factorySet := false, closeSet := false }
  match c.conns with
  | none => ⟨c1, [], false⟩
  | some cb =>
    if c.closeSet then ⟨c1, cb.buf.map (fun w => w.conn), false⟩
    else if cb.buf.isEmpty then ⟨c1, [], false⟩
    else ⟨c1, [], true⟩  -- closeFun == nil invoked on the first entry: panic

/-- `channelPool.Len` (`channel.go:270-272`). -/
def Len {α : Type} (c : channelPool α) : Nat :=
  match c.conns with
  | none => 0
  | some cb => cb.buf.length

/-- `channelPool.GetCurCount` (`channel.go:275-277`). -/
def GetCurCount {α : Type} (c : channelPool α) : Int := c.curConnCount

/-- The `for { select { ... } }` scan inside `judgeTimeout`
(`channel.go:128-150`).  A popped entry is either destroyed (when
`curConnCount > maxIdle` and it is older than `idleTimeout`) or pushed back
onto the back of the same channel; the loop returns only when the
non-blocking receive fails.  `none` = the scan did not finish within `fuel`
iterations. -/
def judgeLoop {α : Type} (now : Int) :
    Nat → channelPool α → List (Effect α) →
    Option (channelPool α × List (Effect α) × Bool)
  | 0, _, _ => none
  | fuel+1, c, eff =>
    match c.conns with
    | none => some (c, eff, false)  -- nil channel: select takes default → return
    | some cb =>
      match cb.buf with
      | [] => some (c, eff, false)  -- default: return
      | wrapConn :: rest =>
        let c1 := { c with conns := some { cb with buf := rest } }
        if c1.curConnCount > c1.maxIdle ∧ wrapConn.t + c1.idleTimeout < now then
          -- c.Close(wrapConn.conn); c.curConnCount--; continue
          if c1.closeSet then
            judgeLoop now fuel
              { c1 with curConnCount := c1.curConnCount - 1 }
              (eff ++ [Effect.destroyed wrapConn.conn])
          else some (c1, eff, true)  -- nil destructor: panic
        else
          -- c.conns <- wrapConn  (push back onto the SAME channel), loop again
          judgeLoop now fuel
            { c1 with conns := some { cb with buf := rest ++ [wrapConn] } } eff

/-- One sweep pass, the `judgeTimeout` closure of `channelPool.Check`
(`channel.go:123-151`): the `c.conns == nil` early return, then the scan. -/
def judgeTimeout {α : Type} (now : Int) (fuel : Nat) (c : channelPool α) :
    Option (channelPool α × List (Effect α) × Bool) :=
  match c.conns with
  | none => some (c, [], false)
  | some _ => judgeLoop now fuel c []

/-- The `for i := 0; i < initialCap; i++` fill loop of `NewChannelPool`
(`channel.go:80-88`); on a factory error the partly-filled pool is Released
and construction fails. -/
def fillPool {α : Type} (factory : Nat → Except String α) (now : Int) :
    Nat → channelPool α → Except String (channelPool α)
  | 0, c => .ok c
  | n+1, c =>
    match factory c.factoryCalls with
    | .error e => .error ("factory is not able to fill the pool: " ++ e)
    | .ok a =>
      fillPool factory now n
        { c with
            curConnCount := c.curConnCount + 1,
            conns := match c.conns with
                     | some cb => some { cb with buf := cb.buf ++ [⟨a, now⟩] }
                     | none => none,
            factoryCalls := c.factoryCalls + 1 }

/-- `NewChannelPool` (`channel.go:55-94`): eager validation, the initial
channel of capacity `MaxActive`, then the eager fill. -/
def NewChannelPool {α : Type} (factory : Nat → Except String α) (now : Int)
    (cfg : PoolConfig) : Except String (channelPool α) :=
  if cfg.initialCap < 0 ∨ cfg.maxActive ≤ 0 ∨ cfg.initialCap > cfg.maxActive then
    .error "invalid capacity settings"
  else if ¬ cfg.factorySet then .error "invalid factory func settings"
  else if ¬ cfg.closeSet then .error "invalid close func settings"
  else
    fillPool factory now cfg.initialCap.toNat
      { conns := some ⟨cfg.maxActive.toNat, []⟩
        maxActive := cfg.maxActive
        maxIdle := cfg.maxIdle
        curConnCount := 0
        factorySet := true
        closeSet := true
        pingSet := cfg.pingSet
        idleTimeout := cfg.idleTimeout
        checkInterval := cfg.checkInterval
        factoryCalls := 0 }

/-! ### Ghost state for the admission-control invariant

A `Config` pairs the pool with the number of resources currently held by
callers (acquired and not yet released).  A well-bracketed client trace is a
sequence of completed `Get`/`Put` calls in which a non-nil `Put` only happens
while the caller holds a resource. -/

/-- Pool state plus the ghost count of caller-held resources. -/
structure Config (α : Type) where
  pool : channelPool α
  held : Nat

/-- How many resources a `Get` outcome hands to the caller. -/
def hGain {α : Type} : GetR α → Nat
  | .ok _ => 1
  | _ => 0

/-- One completed public operation of a well-bracketed client: a `Get` with
any oracles/time/fuel, a `Put` of a held resource, or a `Put` of nil. -/
inductive PoolStep {α : Type} : Config α → Config α → Prop where
  | get (k : Config α) (f : Nat → Except String α) (p : α → Option String)
      (now : Int) (fuel : Nat) (r : GetR α) (c' : channelPool α)
      (eff : List (Effect α)) :
      Get f p now fuel k.pool = some (r, c', eff) →
      PoolStep k ⟨c', k.held + hGain r⟩
  | put (k : Config α) (clo : α → Option String) (now : Int) (a : α) :
      1 ≤ k.held →
      PoolStep k ⟨(Put clo now k.pool (some a)).2.1, k.held - 1⟩
  | putNil (k : Config α) (clo : α → Option String) (now : Int) :
      PoolStep k ⟨(Put clo now k.pool none).2.1, k.held⟩

/-- Reachability by completed `Get`/`Put` operations. -/
inductive Reach {α : Type} : Config α → Config α → Prop where
  | refl (k : Config α) : Reach k k
  | step {a b c : Config α} : Reach a b → PoolStep b c → Reach a c

/-- The inductive invariant: the pool is open, the channel capacity is
`maxActive`, and `curConnCount` is between the number of accounted resources
(buffered + held; leaked ping-failures only add slack) and `maxActive`. -/
def PoolInv {α : Type} (c : channelPool α) (held : Nat) : Prop :=
  ∃ cb, c.conns = some cb ∧
    cb.cap = c.maxActive.toNat ∧
    0 < c.maxActive ∧
    c.curConnCount ≤ c.maxActive ∧
    (cb.buf.length : Int) + (held : Int) ≤ c.curConnCount

/-! ### Concrete fixtures used by witnesses and counterexamples -/

/-- A factory oracle that always succeeds, returning `100 + n` at call `n`. -/
def factOK : Nat → Except String Nat := fun n => .ok (100 + n)

/-- A health-check oracle that always passes. -/
def noErr : Nat → Option String := fun _ => none

/-- A health-check oracle that always fails. -/
def pingFails : Nat → Option String := fun _ => some "bad"

/-- An open pool with `maxActive = 2`, one outstanding resource sitting idle
in the buffer (resource `5`, stamped at time 0), and a ping configured. -/
def pingLeakPool : channelPool Nat :=
  { conns := some ⟨2, [⟨5, 0⟩]⟩, maxActive := 2, maxIdle := 0,
    curConnCount := 1, factorySet := true, closeSet := true, pingSet := true,
    idleTimeout := 0, checkInterval := 0, factoryCalls := 0 }

/-- An open pool whose single idle entry is retained by the sweep: with
`curConnCount = maxIdle = 1` the eviction guard `curConnCount > maxIdle`
is false, so the entry is always pushed back. -/
def retainedPool : channelPool Nat :=
  { conns := some ⟨1, [⟨5, 0⟩]⟩, maxActive := 1, maxIdle := 1,
    curConnCount := 1, factorySet := true, closeSet := true, pingSet := false,
    idleTimeout := 1, checkInterval := 1, factoryCalls := 0 }

/-- A configuration: `initialCap = 1`, `maxActive = 2`, no ping. -/
def cfgOne : PoolConfig :=
  { initialCap := 1, maxActive := 2, maxIdle := 0, factorySet := true,
    closeSet := true, pingSet := false, idleTimeout := 0, checkInterval := 0 }

/-- The pool `NewChannelPool factOK 0 cfgOne` constructs: one eagerly
created resource (`100`) idle in a capacity-2 buffer. -/
def builtOne : channelPool Nat :=
  { conns := some ⟨2, [⟨100, 0⟩]⟩, maxActive := 2, maxIdle := 0,
    curConnCount := 1, factorySet := true, closeSet := true, pingSet := false,
    idleTimeout := 0, checkInterval := 0, factoryCalls := 1 }

/-- A configuration with `initialCap = 0`, `maxActive = 1`, no ping. -/
def cfgEmpty : PoolConfig :=
  { initialCap := 0, maxActive := 1, maxIdle := 0, factorySet := true,
    closeSet := true, pingSet := false, idleTimeout := 0, checkInterval := 0 }

/-- The pool `NewChannelPool factOK 0 cfgEmpty` constructs: empty buffer of
capacity 1, no outstanding resources. -/
def builtEmpty : channelPool Nat :=
  { conns := some ⟨1, []⟩, maxActive := 1, maxIdle := 0,
    curConnCount := 0, factorySet := true, closeSet := true, pingSet := false,
    idleTimeout := 0, checkInterval := 0, factoryCalls := 0 }

/-- `builtEmpty` after one successful `Get` (factory call 0 returned `100`). -/
def builtEmptyAfterGet : channelPool Nat :=
  { builtEmpty with curConnCount := 1, factoryCalls := 1 }

/-- An open pool that is at capacity with an empty buffer: `maxActive = 1`,
`curConnCount = 1`, both outstanding resources held by callers. -/
def fullPool : channelPool Nat :=
  { conns := some ⟨1, []⟩, maxActive := 1, maxIdle := 0,
    curConnCount := 1, factorySet := true, closeSet := true, pingSet := false,
    idleTimeout := 0, checkInterval := 0, factoryCalls := 0 }

/-! ## Theorems -/

theorem Release_pool_eq {α : Type} (c : channelPool α) :
    (Release c).pool =
      { c with conns := none, factorySet := false, closeSet := false } := by
  unfold Release
  rcases h : c.conns with _ | cb
  · rfl
  · dsimp only
    split
    · rfl
    · split <;> rfl

theorem Release_closed {α : Type} (p : channelPool α) (h1 : p.conns = none)
    (h2 : p.factorySet = false) (h3 : p.closeSet = false) :
    Release p = ⟨p, [], false⟩ := by
  have hp : { p with conns := none, factorySet := false, closeSet := false } = p := by
    cases p
    simp_all
  unfold Release
  rcases h : p.conns with _ | cb
  · dsimp only
    rw [hp]
  · rw [h] at h1; cases h1

/-- C6. Shutdown (`Release`) is idempotent: a second call leaves the pool
state produced by the first call unchanged, invokes the destructor on no
resource, and does not panic. -/
theorem release_idempotent {α : Type} (c : channelPool α) :
    Release (Release c).pool = ⟨(Release c).pool, [], false⟩ :=
  Release_closed _ (by rw [Release_pool_eq]) (by rw [Release_pool_eq])
    (by rw [Release_pool_eq])

/-- C7. Every `Get` issued after `Release` has completed returns the
`ErrClosed` error (and no resource), leaving the closed pool unchanged. -/
theorem get_after_release_errClosed {α : Type}
    (f : Nat → Except String α) (p : α → Option String) (now : Int)
    (fuel : Nat) (c : channelPool α) :
    Get f p now fuel (Release c).pool =
      some (GetR.err ErrClosed, (Release c).pool, []) := by
  have h : (Release c).pool.conns = none := by rw [Release_pool_eq]
  unfold Get
  rw [h]

/-- C8. `Put` with a nil resource returns the nil-resource error and leaves
the pool state (in particular `curConnCount` and the idle buffer) unchanged,
with no side effects. -/
theorem put_nil_rejected {α : Type} (closeO : α → Option String) (now : Int)
    (c : channelPool α) :
    Put closeO now c none = (PutR.ret (some ErrConnNil), c, []) := rfl

/-- C9. On an open pool whose idle buffer is not full, `Put` of a non-nil
resource returns a nil error, appends exactly one entry to the idle buffer,
produces no side effect, and leaves every other pool field (in particular
`curConnCount`, `maxActive`, `maxIdle` and the factory/destructor/ping
references) unchanged. -/
theorem put_open_not_full_frame {α : Type} (closeO : α → Option String)
    (now : Int) (c : channelPool α) (cb : ChanBuf α) (a : α)
    (hc : c.conns = some cb) (hroom : cb.buf.length < cb.cap) :
    Put closeO now c (some a) =
      (PutR.ret none,
       { c with conns := some { cb with buf := cb.buf ++ [⟨a, now⟩] } }, []) ∧
    (Put closeO now c (some a)).2.1.curConnCount = c.curConnCount ∧
    (Put closeO now c (some a)).2.1.maxActive = c.maxActive ∧
    (Put closeO now c (some a)).2.1.maxIdle = c.maxIdle ∧
    (Put closeO now c (some a)).2.1.factorySet = c.factorySet ∧
    (Put closeO now c (some a)).2.1.closeSet = c.closeSet ∧
    (Put closeO now c (some a)).2.1.pingSet = c.pingSet := by
  have h : Put closeO now c (some a) =
      (PutR.ret none,
       { c with conns := some { cb with buf := cb.buf ++ [⟨a, now⟩] } }, []) := by
    unfold Put
    rw [hc]
    dsimp only
    rw [if_pos hroom]
  exact ⟨h, by rw [h], by rw [h], by rw [h], by rw [h], by rw [h], by rw [h]⟩

theorem put_open_not_full_frame_witness :
    Put noErr 7 pingLeakPool (some 42) =
      (PutR.ret none,
       { pingLeakPool with conns := some ⟨2, [⟨5, 0⟩, ⟨42, 7⟩]⟩ }, []) ∧
    (Put noErr 7 pingLeakPool (some 42)).2.1.curConnCount =
      pingLeakPool.curConnCount ∧
    (Put noErr 7 pingLeakPool (some 42)).2.1.maxActive =
      pingLeakPool.maxActive ∧
    (Put noErr 7 pingLeakPool (some 42)).2.1.maxIdle = pingLeakPool.maxIdle ∧
    (Put noErr 7 pingLeakPool (some 42)).2.1.factorySet =
      pingLeakPool.factorySet ∧
    (Put noErr 7 pingLeakPool (some 42)).2.1.closeSet =
      pingLeakPool.closeSet ∧
    (Put noErr 7 pingLeakPool (some 42)).2.1.pingSet = pingLeakPool.pingSet :=
  put_open_not_full_frame noErr 7 pingLeakPool ⟨2, [⟨5, 0⟩]⟩ 42 (by rfl)
    (by decide)

theorem fillPool_pingSet {α : Type} (f : Nat → Except String α) (now : Int) :
    ∀ (n : Nat) (c p : channelPool α),
      fillPool f now n c = .ok p → p.pingSet = c.pingSet := by
  intro n
  induction n with
  | zero =>
    intro c p h
    unfold fillPool at h
    cases h
    rfl
  | succ m ih =>
    intro c p h
    unfold fillPool at h
    rcases hf : f c.factoryCalls with e | a <;> rw [hf] at h <;> dsimp only at h
    · cases h
    · have h2 := ih _ _ h
      exact h2

theorem newChannelPool_pingSet {α : Type} (f : Nat → Except String α)
    (now : Int) (cfg : PoolConfig) (p : channelPool α)
    (hnew : NewChannelPool f now cfg = .ok p) : p.pingSet = cfg.pingSet := by
  unfold NewChannelPool at hnew
  split at hnew
  · cases hnew
  · split at hnew
    · cases hnew
    · split at hnew
      · cases hnew
      · exact fillPool_pingSet f now _ _ _ hnew

/-- C10. `Ping` guards only against a nil resource: on a pool constructed
without a health-check callback, `Ping` of a non-nil resource calls the nil
`c.ping` function value — a panic — while `Ping` of nil returns the
nil-resource error. -/
theorem ping_without_healthcheck_panics {α : Type}
    (f : Nat → Except String α) (pingO : α → Option String) (now : Int)
    (cfg : PoolConfig) (p : channelPool α) (a : α)
    (hping : cfg.pingSet = false)
    (hnew : NewChannelPool f now cfg = .ok p) :
    Ping pingO p (some a) = PutR.panicked ∧
    Ping pingO p none = PutR.ret (some ErrConnNil) := by
  have hp : p.pingSet = false := by
    rw [newChannelPool_pingSet f now cfg p hnew, hping]
  constructor
  · unfold Ping
    rw [hp]
    rfl
  · rfl

theorem ping_without_healthcheck_panics_witness :
    Ping noErr builtOne (some 3) = PutR.panicked ∧
    Ping noErr builtOne none = PutR.ret (some ErrConnNil) :=
  ping_without_healthcheck_panics factOK noErr 0 cfgOne builtOne 3 (by rfl)
    (by rfl)

/-- C5. The `default:` branch of `Get` on an empty idle buffer:
`curConnCount` is incremented speculatively; (1) if the new value exceeds
`maxActive` it is decremented back (net: state unchanged) and, after the
fixed 20ms sleep, the loop retries from the top; (2) if under the cap and
the factory fails, the count is decremented back and the error returned;
(3) if the factory succeeds the new resource is returned with the
incremented count, the idle buffer left untouched (the resource is not
placed in it). -/
theorem get_default_branch {α : Type} (factory : Nat → Except String α)
    (pingO : α → Option String) (now : Int) (fuel : Nat)
    (c : channelPool α) (cb : ChanBuf α)
    (hc : c.conns = some cb) (hb : cb.buf = []) (hf : c.factorySet = true) :
    (c.curConnCount + 1 > c.maxActive →
      Get factory pingO now (fuel + 1) c =
        getLoop factory pingO now fuel c
          [Effect.sleep 20, Effect.log "conn pool full, sleep 20 ms"]) ∧
    (c.curConnCount + 1 ≤ c.maxActive →
      ∀ e, factory c.factoryCalls = .error e →
        Get factory pingO now (fuel + 1) c =
          some (GetR.err e,
            { c with factoryCalls := c.factoryCalls + 1 }, [])) ∧
    (c.curConnCount + 1 ≤ c.maxActive →
      ∀ a, factory c.factoryCalls = .ok a →
        Get factory pingO now (fuel + 1) c =
          some (GetR.ok a,
            { c with curConnCount := c.curConnCount + 1,
                     factoryCalls := c.factoryCalls + 1 }, [])) := by
  have hget : Get factory pingO now (fuel + 1) c =
      getLoop factory pingO now (fuel + 1) c [] := by
    unfold Get
    rw [hc]
  have hstep : getLoop factory pingO now (fuel + 1) c [] =
      (match getDefault factory c [] with
       | .inl (c2, eff2) => getLoop factory pingO now fuel c2 eff2
       | .inr res => some res) := by
    rw [getLoop, hc]
    dsimp only
    rw [hb]
  refine ⟨fun hover => ?_, fun hunder e he => ?_, fun hunder a ha => ?_⟩
  · have hd : getDefault factory c [] =
        .inl ({ c with curConnCount := c.curConnCount + 1 - 1 },
          [Effect.sleep 20, Effect.log "conn pool full, sleep 20 ms"]) := by
      unfold getDefault
      dsimp only
      rw [if_pos hover]
      rfl
    have hcc : ({ c with curConnCount := c.curConnCount + 1 - 1 } :
        channelPool α) = c := by
      have : c.curConnCount + 1 - 1 = c.curConnCount := by omega
      rw [this]
    rw [hget, hstep, hd, hcc]
  · have hd : getDefault factory c [] =
        .inr (GetR.err e, { c with factoryCalls := c.factoryCalls + 1 }, []) := by
      unfold getDefault
      dsimp only
      rw [if_neg (by omega), if_pos hf, he]
      dsimp only
      have : c.curConnCount + 1 - 1 = c.curConnCount := by omega
      rw [this]
    rw [hget, hstep, hd]
  · have hd : getDefault factory c [] =
        .inr (GetR.ok a,
          { c with curConnCount := c.curConnCount + 1,
                   factoryCalls := c.factoryCalls + 1 }, []) := by
      unfold getDefault
      dsimp only
      rw [if_neg (by omega), if_pos hf, ha]
    rw [hget, hstep, hd]

theorem get_default_branch_witness :
    Get factOK noErr 0 2 fullPool =
      getLoop factOK noErr 0 1 fullPool
        [Effect.sleep 20, Effect.log "conn pool full, sleep 20 ms"] :=
  (get_default_branch factOK noErr 0 1 fullPool ⟨1, []⟩ (by rfl) (by rfl)
    (by rfl)).1 (by decide)

/-- C2 (divergence witness). On a pool holding one idle resource that fails
the configured health check, `Get` drops the candidate and retries, but it
invokes no destructor (`Effect.destroyed` never appears) and does not
decrement `curConnCount`: the count rises from 1 to 2 when the factory
replaces the dropped resource, so the failed resource stays counted
against `maxActive` forever. -/
theorem get_ping_fail_no_destroy_no_decrement :
    Get factOK pingFails 0 3 pingLeakPool =
      some (GetR.ok 100,
        { pingLeakPool with conns := some ⟨2, []⟩, curConnCount := 2,
                             factoryCalls := 1 },
        [Effect.log "conn is not able to be connected: bad"]) := by rfl

theorem judgeLoop_retained :
    ∀ fuel : Nat, judgeLoop 100 fuel retainedPool [] = none := by
  intro fuel
  induction fuel with
  | zero => rfl
  | succ n ih =>
    have hstep : judgeLoop 100 (n + 1) retainedPool [] =
        judgeLoop 100 n retainedPool [] := by rfl
    rw [hstep, ih]

/-- C3 (divergence witness). A sweep pass on a buffer holding a single
retained entry (`curConnCount ≤ maxIdle`, so the entry is pushed back each
time) re-receives the pushed-back entry forever: for every fuel bound the
scan has not returned, so one invocation of `judgeTimeout` processes the
same entry over and over and never terminates. -/
theorem sweep_pass_never_terminates :
    ∀ fuel : Nat, judgeTimeout 100 fuel retainedPool = none := by
  intro fuel
  have h : judgeTimeout 100 fuel retainedPool =
      judgeLoop 100 fuel retainedPool [] := by rfl
  rw [h]
  exact judgeLoop_retained fuel

/-- C4 (divergence witness). After `Release` has closed the pool
(constructed here as `NewChannelPool factOK 0 cfgOne`), `Put` of a non-nil
resource decrements `curConnCount` and then calls `c.Close`, which invokes
the nil destructor reference (`Release` set `c.close = nil`): a runtime
panic, with no destructor invocation on the resource. -/
theorem put_after_release_panics :
    NewChannelPool factOK 0 cfgOne = .ok builtOne ∧
    Put noErr 7 (Release builtOne).pool (some 42) =
      (PutR.panicked,
       { (Release builtOne).pool with curConnCount := 0 }, []) := by
  constructor
  · rfl
  · rfl

theorem getLoop_inv {α : Type} (f : Nat → Except String α)
    (p : α → Option String) (now : Int) :
    ∀ (fuel : Nat) (c : channelPool α) (held : Nat) (eff : List (Effect α))
      (r : GetR α) (c' : channelPool α) (eff' : List (Effect α)),
      PoolInv c held →
      getLoop f p now fuel c eff = some (r, c', eff') →
      PoolInv c' (held + hGain r) := by
  intro fuel
  induction fuel with
  | zero =>
    intro c held eff r c' eff' _ h
    rw [getLoop] at h
    exact Option.noConfusion h
  | succ n ih =>
    intro c held eff r c' eff' hInv h
    obtain ⟨cb, hc, hcap, hpos, hle, hcnt⟩ := hInv
    rw [getLoop, hc] at h
    dsimp only at h
    rcases hbuf : cb.buf with _ | ⟨w, rest⟩ <;> rw [hbuf] at h hcnt <;>
      dsimp only at h <;>
      simp only [List.length_cons, List.length_nil] at hcnt
    · -- empty buffer: default branch
      rw [getDefault] at h
      dsimp only at h
      by_cases hover : c.curConnCount + 1 > c.maxActive
      · rw [if_pos hover] at h
        dsimp only at h
        have hxx : ({ c with curConnCount := c.curConnCount + 1 - 1 } :
            channelPool α) = c := by
          have h1 : c.curConnCount + 1 - 1 = c.curConnCount := by omega
          rw [h1]
        rw [hxx] at h
        exact ih c held _ r c' eff'
          ⟨cb, hc, hcap, hpos, hle, by simp only [hbuf, List.length_nil]; omega⟩ h
      · rw [if_neg hover] at h
        rcases hf : c.factorySet
        · rw [if_neg (by simp [hf])] at h
          dsimp only at h
          simp only [Option.some.injEq, Prod.mk.injEq] at h
          obtain ⟨hr, hcs, heff⟩ := h
          subst hr hcs
          refine ⟨cb, hc, hcap, hpos, ?_, ?_⟩ <;>
            simp only [hGain, hbuf, List.length_nil] <;> omega
        · rw [if_pos (by simp [hf])] at h
          rcases hfc : f c.factoryCalls with e | a <;> rw [hfc] at h <;>
            dsimp only at h <;>
            simp only [Option.some.injEq, Prod.mk.injEq] at h <;>
            obtain ⟨hr, hcs, heff⟩ := h <;> subst hr hcs <;>
            refine ⟨cb, hc, hcap, hpos, ?_, ?_⟩ <;>
            simp only [hGain, hbuf, List.length_nil] <;> omega
    · -- an idle entry was popped
      by_cases htime : 0 < c.idleTimeout ∧ w.t + c.idleTimeout < now
      · rw [if_pos htime] at h
        rcases hcl : c.closeSet
        · rw [if_neg (by simp [hcl])] at h
          simp only [Option.some.injEq, Prod.mk.injEq] at h
          obtain ⟨hr, hcs, heff⟩ := h
          subst hr hcs
          refine ⟨⟨cb.cap, rest⟩, rfl, hcap, hpos, hle, ?_⟩
          dsimp only [hGain]
          omega
        · rw [if_pos (by simp [hcl])] at h
          refine ih _ held _ r c' eff' ?_ h
          refine ⟨⟨cb.cap, rest⟩, rfl, hcap, hpos, ?_, ?_⟩ <;>
            dsimp only <;> omega
      · rw [if_neg htime] at h
        rcases hping : c.pingSet
        · rw [if_neg (by simp [hping])] at h
          simp only [Option.some.injEq, Prod.mk.injEq] at h
          obtain ⟨hr, hcs, heff⟩ := h
          subst hr hcs
          refine ⟨⟨cb.cap, rest⟩, rfl, hcap, hpos, hle, ?_⟩
          dsimp only [hGain]
          omega
        · rw [if_pos (by simp [hping])] at h
          rcases hpw : p w.conn with _ | e <;> rw [hpw] at h <;> dsimp only at h
          · simp only [Option.some.injEq, Prod.mk.injEq] at h
            obtain ⟨hr, hcs, heff⟩ := h
            subst hr hcs
            refine ⟨⟨cb.cap, rest⟩, rfl, hcap, hpos, hle, ?_⟩
            dsimp only [hGain]
            omega
          · refine ih _ held _ r c' eff' ?_ h
            refine ⟨⟨cb.cap, rest⟩, rfl, hcap, hpos, hle, ?_⟩
            dsimp only
            omega

theorem Get_inv {α : Type} (f : Nat → Except String α) (p : α → Option String)
    (now : Int) (fuel : Nat) (c : channelPool α) (held : Nat) (r : GetR α)
    (c' : channelPool α) (eff : List (Effect α))
    (hInv : PoolInv c held) (h : Get f p now fuel c = some (r, c', eff)) :
    PoolInv c' (held + hGain r) := by
  obtain ⟨cb, hc, hrest⟩ := hInv
  unfold Get at h
  rw [hc] at h
  exact getLoop_inv f p now fuel c held [] r c' eff ⟨cb, hc, hrest⟩ h

theorem Put_some_inv {α : Type} (clo : α → Option String) (now : Int)
    (c : channelPool α) (held : Nat) (a : α)
    (hInv : PoolInv c held) (hheld : 1 ≤ held) :
    PoolInv (Put clo now c (some a)).2.1 (held - 1) := by
  obtain ⟨cb, hc, hcap, hpos, hle, hcnt⟩ := hInv
  have htn : (c.maxActive.toNat : Int) = c.maxActive :=
    Int.toNat_of_nonneg (le_of_lt hpos)
  unfold Put
  rw [hc]
  dsimp only
  by_cases hroom : cb.buf.length < cb.cap
  · rw [if_pos hroom]
    refine ⟨⟨cb.cap, cb.buf ++ [⟨a, now⟩]⟩, rfl, hcap, hpos, hle, ?_⟩
    simp only [List.length_append, List.length_cons, List.length_nil]
    omega
  · exfalso
    have hgeq : (c.maxActive : Int) ≤ (cb.buf.length : Int) := by
      rw [← htn, ← hcap]
      exact_mod_cast le_of_not_lt hroom
    omega

theorem PoolStep_inv {α : Type} {k k' : Config α}
    (hInv : PoolInv k.pool k.held) (hstep : PoolStep k k') :
    PoolInv k'.pool k'.held := by
  cases hstep with
  | get f p now fuel r c' eff h =>
    exact Get_inv f p now fuel k.pool k.held r c' eff hInv h
  | put clo now a hheld =>
    exact Put_some_inv clo now k.pool k.held a hInv hheld
  | putNil clo now =>
    exact hInv

theorem Reach_inv {α : Type} {k0 k : Config α}
    (hInv : PoolInv k0.pool k0.held) (hreach : Reach k0 k) :
    PoolInv k.pool k.held := by
  induction hreach with
  | refl => exact hInv
  | step _ hstep ih => exact PoolStep_inv ih hstep

theorem fillPool_inv {α : Type} (f : Nat → Except String α) (now : Int) :
    ∀ (n : Nat) (c : channelPool α) (cb : ChanBuf α) (q : channelPool α),
      c.conns = some cb →
      cb.cap = c.maxActive.toNat →
      0 < c.maxActive →
      (cb.buf.length : Int) ≤ c.curConnCount →
      c.curConnCount + n ≤ c.maxActive →
      fillPool f now n c = .ok q →
      PoolInv q 0 := by
  intro n
  induction n with
  | zero =>
    intro c cb q hc hcap hpos hlen hcnt h
    unfold fillPool at h
    cases h
    exact ⟨cb, hc, hcap, hpos, by omega, by omega⟩
  | succ m ih =>
    intro c cb q hc hcap hpos hlen hcnt h
    unfold fillPool at h
    rcases hf : f c.factoryCalls with e | a <;> rw [hf] at h <;> dsimp only at h
    · cases h
    · rw [hc] at h
      dsimp only at h
      refine ih _ ⟨cb.cap, cb.buf ++ [⟨a, now⟩]⟩ q ?_ ?_ ?_ ?_ ?_ h
      · rfl
      · exact hcap
      · exact hpos
      · dsimp only
        simp only [List.length_append, List.length_cons, List.length_nil]
        omega
      · dsimp only
        omega

theorem NewChannelPool_inv {α : Type} (f : Nat → Except String α) (now : Int)
    (cfg : PoolConfig) (q : channelPool α)
    (hnew : NewChannelPool f now cfg = .ok q) : PoolInv q 0 := by
  unfold NewChannelPool at hnew
  split at hnew
  · cases hnew
  · split at hnew
    · cases hnew
    · split at hnew
      · cases hnew
      · rename_i hcapOK hfOK hcOK
        have h1 : ¬(cfg.initialCap < 0 ∨ cfg.maxActive ≤ 0 ∨
            cfg.initialCap > cfg.maxActive) := hcapOK
        push_neg at h1
        obtain ⟨hic, hma, hicma⟩ := h1
        refine fillPool_inv f now cfg.initialCap.toNat _
          ⟨cfg.maxActive.toNat, []⟩ q rfl rfl (by exact hma) (by simp) ?_ hnew
        show (0 : Int) + (cfg.initialCap.toNat : Int) ≤ cfg.maxActive
        have h2 : (cfg.initialCap.toNat : Int) = cfg.initialCap :=
          Int.toNat_of_nonneg hic
        omega

/-- C1. Admission-control invariant: starting from any successfully
constructed pool (`maxActive > 0` is enforced by construction), after any
well-bracketed sequence of completed `Get`/`Put` operations the outstanding
counter satisfies `0 ≤ curConnCount ≤ maxActive`. -/
theorem get_put_count_bounds {α : Type} (f : Nat → Except String α)
    (now : Int) (cfg : PoolConfig) (q : channelPool α)
    (hnew : NewChannelPool f now cfg = .ok q)
    (k : Config α) (hreach : Reach ⟨q, 0⟩ k) :
    0 ≤ k.pool.curConnCount ∧ k.pool.curConnCount ≤ k.pool.maxActive := by
  have hInv : PoolInv k.pool k.held :=
    Reach_inv (NewChannelPool_inv f now cfg q hnew) hreach
  obtain ⟨cb, hc, hcap, hpos, hle, hcnt⟩ := hInv
  constructor
  · omega
  · exact hle

theorem get_put_count_bounds_witness :
    0 ≤ builtEmptyAfterGet.curConnCount ∧
      builtEmptyAfterGet.curConnCount ≤ builtEmptyAfterGet.maxActive :=
  get_put_count_bounds factOK 0 cfgEmpty builtEmpty (by rfl)
    ⟨builtEmptyAfterGet, 1⟩
    (Reach.step (Reach.refl ⟨builtEmpty, 0⟩)
      (PoolStep.get ⟨builtEmpty, 0⟩ factOK noErr 0 1 (GetR.ok 100)
        builtEmptyAfterGet [] (by rfl)))

end pool
